import Mathlib

set_option maxRecDepth 40000

/-!
Verification of the orbiton live-development core: the HMR change-tracking
state (`src/hmr.rs`), the path-to-module mapper, the debounce/rebuild
coordinator loop (`src/commands/dev.rs`), the broadcast hub and asset server
(`src/dev_server.rs`), and HTML client injection (`src/hmr_inject.rs`).

Rust strings are modelled as `List Char` (a Rust `String` is a sequence of
Unicode scalar values); byte indices are recovered through the UTF-8 encoded
length of each scalar.  Monotonic instants and durations are modelled as `Nat`
(`Instant::elapsed` becomes truncated subtraction, which agrees with the real
clock because instants never exceed `now`).  Fallible operations return
`Option`/`Except`; a Rust panic (`expect`, `split_at` off a char boundary) is
modelled as `none`.
-/

namespace Orbiton

/-- A Rust string: its sequence of Unicode scalar values. -/
abbrev Str := List Char

/-- UTF-8 encoded length in bytes of one Unicode scalar value. -/
def utf8Len (c : Char) : Nat :=
  if c.toNat < 0x80 then 1
  else if c.toNat < 0x800 then 2
  else if c.toNat < 0x10000 then 3
  else 4

/-- UTF-8 encoded length in bytes of a string. -/
def utf8LenList (l : Str) : Nat := (l.map utf8Len).sum

/-- Rust `str::contains` with a string pattern: does `p` occur as a contiguous
substring of `l`? -/
def occursB (p l : Str) : Bool :=
  match l with
  | [] => p.isPrefixOf ([] : Str)
  | c :: rest => p.isPrefixOf (c :: rest) || occursB p rest

/-- Fuel-indexed scan counting left-to-right non-overlapping occurrences of
a nonempty pattern; each step consumes at least one character, so fuel equal
to the list length is always enough. -/
def countOccF (p : Str) : Nat → Str → Nat
  | _, [] => 0
  | 0, _ => 0
  | fuel + 1, c :: rest =>
    if p ≠ [] ∧ p.isPrefixOf (c :: rest) then
      1 + countOccF p fuel ((c :: rest).drop p.length)
    else countOccF p fuel rest

/-- Number of (left-to-right, non-overlapping) occurrences of a nonempty
pattern `p`, matching Rust `str::matches(p).count()`. -/
def countOcc (p l : Str) : Nat := countOccF p l.length l

/-- Fuel-indexed scan for `replList`; each step consumes at least one
character, so fuel equal to the list length is always enough. -/
def replListF (p rep : Str) : Nat → Str → Str
  | _, [] => []
  | 0, l => l
  | fuel + 1, c :: rest =>
    if p ≠ [] ∧ p.isPrefixOf (c :: rest) then
      rep ++ replListF p rep fuel ((c :: rest).drop p.length)
    else c :: replListF p rep fuel rest

/-- Rust `str::replace (p, rep)` for a nonempty pattern `p`: scan left to
right, replacing each non-overlapping occurrence of `p` by `rep` and
resuming after it.  (For the empty pattern this model returns `l` unchanged;
every use in the sources has a nonempty pattern.) -/
def replList (p rep l : Str) : Str := replListF p rep l.length l

/-- Rust `str::rfind` with a string pattern, returning the byte index of the
start of the last occurrence of `p` in `l` (byte index measured in the UTF-8
encoding of `l`). -/
def rfindSub (p l : Str) : Option Nat :=
  match l with
  | [] => if p = [] then some 0 else none
  | c :: rest =>
    match rfindSub p rest with
    | some i => some (utf8Len c + i)
    | none => if p.isPrefixOf (c :: rest) then some 0 else none

/-- Rust `str::split_at (n)`: split at byte index `n`; `none` models the
panic when `n` is not on a character boundary or exceeds the length. -/
def splitAtByte (n : Nat) (l : Str) : Option (Str × Str) :=
  if n = 0 then some ([], l)
  else
    match l with
    | [] => none
    | c :: rest =>
      if utf8Len c ≤ n then
        (splitAtByte (n - utf8Len c) rest).map (fun pr => (c :: pr.1, pr.2))
      else none

/-- Lowercase one ASCII letter, leaving every other character unchanged. -/
def asciiLower (c : Char) : Char :=
  ("abcdefghijklmnopqrstuvwxyz".toList).getD
    (("ABCDEFGHIJKLMNOPQRSTUVWXYZ".toList).indexOf c) c

/-- Model of Rust `char`-level Unicode lowercasing as used by
`str::to_lowercase`: exact on ASCII and on the code points appearing in this
development (in particular U+0130 LATIN CAPITAL LETTER I WITH DOT ABOVE,
whose lowercase expands to two scalars and changes the byte length); the
identity on all remaining characters, which is an under-approximation used
only through theorems whose inputs stay inside the exact fragment. -/
def rustToLower (c : Char) : Str :=
  if c = 'İ' then ['i', '̇'] else [asciiLower c]

/-- Rust `str::to_lowercase`. -/
def toLowercase (l : Str) : Str := (l.map rustToLower).flatten

/-- One path component (a file or directory name, no separators). -/
abbrev Comp := Str

/-- A filesystem path as its list of components. -/
abbrev RPath := List Comp

/-- Join path components with `/`, as `Path::to_string_lossy` renders a
relative Unix path. -/
def compString (rel : RPath) : Str :=
  match rel with
  | [] => []
  | [c] => c
  | c :: rest => c ++ '/' :: compString rest

/-- Rust `str::replace ('\\', "/")` specialised to one character: normalize
directory separators. -/
def normSlashes (l : Str) : Str :=
  l.map (fun c => if c = '\\' then '/' else c)

/-- Rust `Path::strip_prefix`: succeeds iff `root` is a component-wise prefix
of `p`, returning the remaining components. -/
def stripPrefixPath (root p : RPath) : Option RPath :=
  if root.isPrefixOf p then some (p.drop root.length) else none

/-- The part of a file name after its final `.`, ignoring a dot in leading
position (helper for `Path::extension`). -/
def extAfterLastDot (t : Str) : Option Str :=
  match t with
  | [] => none
  | c :: rest =>
    match extAfterLastDot rest with
    | some e => some e
    | none => if c = '.' then some rest else none

/-- Rust `Path::extension` on a single file name: the portion after the final
`.`, or `none` when the name has no dot past its first character. -/
def rustExtension (name : Comp) : Option Str :=
  match name with
  | [] => none
  | _ :: t => extAfterLastDot t

/-- Rust `Path::extension` of a whole path: the extension of its last
component. -/
def pathExtension (p : RPath) : Option Str :=
  p.getLast? >>= rustExtension

/-- One tracked module change: mirrors `HmrUpdate` in `src/hmr.rs`
(`module`, `timestamp`, `is_updated`). -/
structure HmrUpdate where
  module : Str
  timestamp : Nat
  is_updated : Bool
deriving DecidableEq, Repr

/-- The `HmrContext` state of `src/hmr.rs`: the `module → HmrUpdate` hash map
(modelled as a list of entries with unique `module` fields, order being one
linearization of the unordered map), the optional last-rebuild instant, and
the project root. -/
structure HmrCtx where
  modules : List HmrUpdate
  last_rebuild : Option Nat
  project_root : RPath
deriving DecidableEq, Repr

/-- A fresh context, as built by `HmrContext::new`. -/
def HmrCtx.init (root : RPath) : HmrCtx := ⟨[], none, root⟩

/-- `HashMap::insert` keyed by `module`: replace the entry with the same key,
or append a new one. -/
def insertModule (l : List HmrUpdate) (u : HmrUpdate) : List HmrUpdate :=
  if l.any (fun v => v.module = u.module) then
    l.map (fun v => if v.module = u.module then u else v)
  else l ++ [u]

def rsExt : Str := "rs".toList
def orbitExt : Str := "orbit".toList
def srcSlash : Str := "src/".toList
def dotRs : Str := ".rs".toList
def dotOrbit : Str := ".orbit".toList

/-- `HmrContext::record_file_change` from `src/hmr.rs`: strip the project
root, normalize separators, and — when the extension is `rs` or `orbit` and
the relative path starts with `src/` — derive the module id by
`replace("src/","").replace(".rs","").replace(".orbit","")` and insert a
fresh unapplied entry; otherwise change nothing and return `none`. -/
def record_file_change (ctx : HmrCtx) (p : RPath) (now : Nat) :
    Option Str × HmrCtx :=
  match stripPrefixPath ctx.project_root p with
  | none => (none, ctx)
  | some rel =>
    let pathStr := normSlashes (compString rel)
    match pathExtension p with
    | none => (none, ctx)
    | some ext =>
      if ext = rsExt ∨ ext = orbitExt then
        if srcSlash.isPrefixOf pathStr then
          let m := replList dotOrbit [] (replList dotRs [] (replList srcSlash [] pathStr))
          (some m, { ctx with modules := insertModule ctx.modules ⟨m, now, false⟩ })
        else (none, ctx)
      else (none, ctx)

/-- `HmrContext::mark_modules_updated`: set `is_updated` on every entry. -/
def mark_modules_updated (ctx : HmrCtx) : HmrCtx :=
  { ctx with modules := ctx.modules.map (fun u => { u with is_updated := true }) }

/-- `HmrContext::needs_update`: some entry is still unapplied. -/
def needs_update (ctx : HmrCtx) : Bool :=
  ctx.modules.any (fun u => !u.is_updated)

/-- `HmrContext::get_pending_updates`: the module ids of the unapplied
entries. -/
def get_pending_updates (ctx : HmrCtx) : List Str :=
  (ctx.modules.filter (fun u => !u.is_updated)).map (fun u => u.module)

/-- `HmrContext::record_rebuild`: set `last_rebuild` to now, then mark every
module updated. -/
def record_rebuild (ctx : HmrCtx) (now : Nat) : HmrCtx :=
  mark_modules_updated { ctx with last_rebuild := some now }

/-- `HmrContext::should_rebuild`: `false` while the debounce window since the
last rebuild is still open, else `needs_update`. -/
def should_rebuild (ctx : HmrCtx) (now debounce : Nat) : Bool :=
  match ctx.last_rebuild with
  | some t => if now - t < debounce then false else needs_update ctx
  | none => needs_update ctx

/-- `HmrContext::clear`: drop every entry, leaving `last_rebuild` alone. -/
def HmrCtx.clear (ctx : HmrCtx) : HmrCtx := { ctx with modules := [] }

/-- Modelled from the spec: `HmrContext::get_stale_updates` is invoked by
`src/maintenance.rs`, `src/dev_maintenance.rs` and the integration tests but
its definition is not among the provided sources; per the spec it returns the
entries whose `detected_at` age exceeds `max_age`, regardless of `applied`. -/
def get_stale_updates (ctx : HmrCtx) (now maxAge : Nat) : List Str :=
  (ctx.modules.filter (fun u => maxAge < now - u.timestamp)).map (fun u => u.module)

/-- Modelled from the spec: `HmrContext::clear_stale_updates` is invoked by
the maintenance modules but its definition is not among the provided sources;
per the spec (`evict_stale`) it removes exactly the entries whose
`detected_at` age exceeds `max_age` and leaves all others untouched. -/
def clear_stale_updates (ctx : HmrCtx) (now maxAge : Nat) : HmrCtx :=
  { ctx with modules := ctx.modules.filter (fun u => now - u.timestamp ≤ maxAge) }

/-- The marker token `inject_hmr_client` looks for to detect a prior
injection. -/
def hmrMarker : Str := "__ORBIT_REGISTER_HMR_HANDLER".toList

/-- The script tag `inject_hmr_client` inserts, with the cache-busting query
parameter `t` (the Unix timestamp in seconds rendered in decimal, as
`format!` renders a `u64`). -/
def scriptTag (t : Nat) : Str :=
  "<script type=\"text/javascript\" src=\"/__orbit_hmr_client.js?v=".toList
    ++ (Nat.toDigits 10 t) ++ "\"></script>\n".toList

def bodyClose : Str := "</body>".toList

/-- `inject_hmr_client` from `src/hmr_inject.rs`.  The Rust function returns
`anyhow::Result<String>` but never constructs an `Err`; `Except` mirrors that
result type, and the outer `Option` models the possible panic of
`split_at` when the byte index found in the lowercased copy is not a char
boundary of the original text. -/
def inject_hmr_client (html : Str) (t : Nat) : Option (Except Str Str) :=
  if occursB hmrMarker html then some (.ok html)
  else
    match rfindSub bodyClose (toLowercase html) with
    | some pos =>
      match splitAtByte pos html with
      | some pr => some (.ok (pr.1 ++ scriptTag t ++ pr.2))
      | none => none
    | none => some (.ok (html ++ scriptTag t))

/-- A filesystem entry as the asset server can observe it: `file` carries
whether `File::open`/reading succeeds and the raw bytes-as-text content. -/
inductive FsEntry where
  | missing
  | directory
  | file (readable : Bool) (content : Str)
deriving DecidableEq, Repr

/-- An HTTP response: status code, body, and the Content-Type header when the
code sets one. -/
structure HttpResponse where
  status : Nat
  body : Str
  ctype : Option Str
deriving DecidableEq, Repr

/-- Outcome of serving one request: a response, or a panic of the serving
thread (Rust `expect` / `split_at` panic). -/
inductive ServeOutcome where
  | ok (r : HttpResponse)
  | panicked (msg : Str)
deriving DecidableEq, Repr

/-- The last component of a slash-separated path string. -/
def lastCompStr (l : Str) : Str :=
  ((l.reverse.takeWhile (fun c => c ≠ '/')).reverse)

/-- `is_html_file` from `src/hmr_inject.rs`: extension compares
case-insensitively equal to `html`. -/
def is_html_file (path : Str) : Bool :=
  match rustExtension (lastCompStr path) with
  | some e => e.map asciiLower = "html".toList
  | none => false

/-- One iteration of the request loop in `DevServer::start`
(`src/dev_server.rs` lines 121-185): the reserved client-script path, then
resolution of the URL against the project directory (`fs` maps the resolved
relative path to its entry); HTML files go through `process_html_file` with a
fallback `File::open(..).expect(..)` on error, other files are opened with
`expect`, and anything that does not exist as a regular file gets a 404 with
a plain-text body (`tiny_http::Response::from_string` sets `text/plain`). -/
def serve (fs : Str → FsEntry) (clientScript : Str) (url : Str) (t : Nat) :
    ServeOutcome :=
  if url = "/__orbit_hmr_client.js".toList then
    .ok ⟨200, clientScript, some "application/javascript".toList⟩
  else
    let trimmed := url.dropWhile (fun c => c = '/')
    let rel := if trimmed = [] then "index.html".toList else trimmed
    match fs rel with
    | .file readable content =>
      if is_html_file rel then
        if readable then
          match inject_hmr_client content t with
          | some (.ok out) => .ok ⟨200, out, some "text/html".toList⟩
          | some (.error _) => .panicked "unreachable".toList
          | none => .panicked "byte index is not a char boundary".toList
        else
          .panicked "Failed to open file".toList
      else
        if readable then .ok ⟨200, content, none⟩
        else .panicked "Failed to open file".toList
    | _ => .ok ⟨404, "File not found".toList, some "text/plain".toList⟩

/-- The state of the `tokio::sync::broadcast` sender: how many receivers are
currently subscribed.  `Sender::send` fails exactly when there are none. -/
structure BroadcastTx where
  receivers : Nat
deriving DecidableEq, Repr

/-- `tokio::sync::broadcast::Sender::send`: `Ok` with the receiver count when
at least one receiver is subscribed, `Err(SendError)` otherwise. -/
def tokioBroadcastSend (tx : BroadcastTx) : Except Str Nat :=
  if tx.receivers = 0 then .error "channel closed".toList else .ok tx.receivers

/-- The broadcast half of `DevServer`: `tx` is `None` once `start` has taken
the sender out of the struct. -/
structure DevServerB where
  tx : Option BroadcastTx
deriving DecidableEq, Repr

/-- `DevServer::new` / `new_with_options`: `broadcast::channel(16)` is
created and its initial receiver is immediately dropped, so the sender starts
with zero subscribers. -/
def DevServerB.new : DevServerB := ⟨some ⟨0⟩⟩

/-- `DevServer::broadcast_update` (`src/dev_server.rs` lines 197-203): send
on the broadcast channel when the sender is present, mapping a send failure
into an error; silently succeed when the sender has been taken. -/
def broadcast_update (s : DevServerB) (_msg : Str) : Except Str Unit :=
  match s.tx with
  | some tx =>
    match tokioBroadcastSend tx with
    | .ok _ => .ok ()
    | .error e => .error ("Failed to broadcast message: ".toList ++ e)
  | none => .ok ()

/-- A message published to the broadcast hub, by kind and payload, mirroring
the `serde_json` objects built in `src/commands/dev.rs` and
`src/dev_server.rs`. -/
inductive Msg where
  | fileChange (paths : List Str) (kind : Str)
  | rebuildStatus (status : Str)
  | hmr (modules : List Str)
  | reload
deriving DecidableEq, Repr

/-- A watch notification from the notify adapter: affected paths and the
debug-rendered event kind. -/
structure WatchEvent where
  paths : List RPath
  kind : Str

/-- Render one event path for the `fileChange` message:
`p.strip_prefix(&pdir).unwrap_or(p).to_string_lossy()`. -/
def relPathStr (pdir : RPath) (p : RPath) : Str :=
  match stripPrefixPath pdir p with
  | some r => compString r
  | none => compString p

/-- Local state of the watcher thread in `setup_file_watching`: the shared
`HmrContext` and the thread-local `last_rebuild` instant (initialized to the
thread start time). -/
structure DevLoopState where
  hmr : HmrCtx
  last_rebuild_local : Nat
deriving Repr, DecidableEq

/-- The `DEBOUNCE_TIME` constant of `src/commands/dev.rs`, in milliseconds. -/
def DEBOUNCE : Nat := 500

/-- `record_file_change` folded over every path of one event, as the
`for path in &event.paths` loop does, returning the updated context. -/
def recordAll (ctx : HmrCtx) (paths : List RPath) (now : Nat) : HmrCtx :=
  paths.foldl (fun c p => (record_file_change c p now).2) ctx

/-- One iteration of the watcher loop in `setup_file_watching`
(`src/commands/dev.rs` lines 218-331): `none` models the `continue` that
skips an event arriving within `DEBOUNCE_TIME` of the thread-local
`last_rebuild`; otherwise the returned list holds the messages handed to
`broadcast_update` in order, and the new loop state.  `buildOk` is the result
of the external `rebuild_project` invocation. -/
def processEvent (pdir : RPath) (s : DevLoopState) (now : Nat)
    (e : WatchEvent) (buildOk : Bool) : Option (DevLoopState × List Msg) :=
  if now - s.last_rebuild_local < DEBOUNCE then none
  else
    let paths := e.paths.map (relPathStr pdir)
    let msgs0 := [Msg.fileChange paths e.kind]
    let ctx := recordAll s.hmr e.paths now
    if should_rebuild ctx now DEBOUNCE then
      if buildOk then
        let ctx2 := record_rebuild ctx now
        let affected := get_pending_updates ctx2
        some (⟨ctx2, now⟩,
          msgs0 ++ [Msg.rebuildStatus "started".toList,
              Msg.rebuildStatus "completed".toList]
            ++ (if affected ≠ [] then [Msg.hmr affected] else []))
      else
        some (⟨ctx, now⟩,
          msgs0 ++ [Msg.rebuildStatus "started".toList,
            Msg.rebuildStatus "failed".toList, Msg.reload])
    else
      some (⟨ctx, s.last_rebuild_local⟩, msgs0)

/-- The module id as the specification words it (for comparison with
`record_file_change`): the path relative to the project root with the leading
source-directory prefix `src/` and the extension stripped, separators
normalized to `/`. -/
def specModuleId (root p : RPath) : Option Str :=
  match stripPrefixPath root p, pathExtension p with
  | some rel, some e =>
    if e = rsExt ∨ e = orbitExt then
      let s := normSlashes (compString rel)
      if srcSlash.isPrefixOf s then
        let t := s.drop srcSlash.length
        some (t.take (t.length - (e.length + 1)))
      else none
    else none
  | _, _ => none

/-! Concrete fixtures used by the witnesses and counterexamples. -/

def rootP : RPath := ["p".toList]
def srcMainPath : RPath := ["p".toList, "src".toList, "main.rs".toList]
def nestedSrcPath : RPath := ["p".toList, "src".toList, "src".toList, "main.rs".toList]
def readmePath : RPath := ["p".toList, "README.md".toList]
def ev1 : WatchEvent := ⟨[srcMainPath], "Modify".toList⟩
def evReadme : WatchEvent := ⟨[readmePath], "Create".toList⟩
def s0 : DevLoopState := ⟨HmrCtx.init rootP, 0⟩

/-- Expected loop state after the successful-rebuild iteration of `ev1`. -/
def s1 : DevLoopState := ⟨⟨[⟨"main".toList, 600, true⟩], some 600, rootP⟩, 600⟩

/-- Messages the success iteration actually hands to `broadcast_update`. -/
def msgs1 : List Msg :=
  [Msg.fileChange ["src/main.rs".toList] "Modify".toList,
   Msg.rebuildStatus "started".toList, Msg.rebuildStatus "completed".toList]

/-- Expected result of processing the unmapped `README.md` event. -/
def rReadme : DevLoopState × List Msg :=
  (⟨HmrCtx.init rootP, 0⟩, [Msg.fileChange ["README.md".toList] "Create".toList])

/-- Context with one pending module `main`, recorded at instant 0. -/
def ctxA : HmrCtx := (record_file_change (HmrCtx.init rootP) srcMainPath 0).2

/-- `ctxA` after `record_rebuild` at instant 0 and a fresh change to the same
module at instant 200 (the debounce scenario of the spec). -/
def ctxB : HmrCtx := (record_file_change (record_rebuild ctxA 0) srcMainPath 200).2

/-- A context holding a fresh pending entry and an already-applied entry old
enough to be stale at `now = 1000`, `max_age = 300`. -/
def ctxW : HmrCtx := ⟨[⟨"fresh".toList, 900, false⟩, ⟨"old".toList, 100, true⟩], none, rootP⟩

def uFresh : HmrUpdate := ⟨"fresh".toList, 900, false⟩

/-- The JSON reload message of the broadcast scenario. -/
def reloadJson : Str := "\x7b\"type\":\"reload\"\x7d".toList

/-- A small project filesystem: a readable HTML index, an unreadable binary
file, an unreadable HTML file. -/
def fs4 : Str → FsEntry := fun p =>
  if p = "index.html".toList then .file true "<html><body>ok</body></html>".toList
  else if p = "locked.bin".toList then .file false "x".toList
  else if p = "locked.html".toList then .file false "<html></html>".toList
  else if p = "assets".toList then .directory
  else .missing

def jsStub : Str := "console.log(1)".toList

def c8html : Str := "<html><body>Hi</body></html>".toList

/-- HTML whose lowercased copy is longer in bytes than the original (each
U+0130 lowercases to two scalars totalling three bytes), pushing the byte
index of the final body tag into the middle of the trailing three-byte
character. -/
def c9bad : Str := List.replicate 8 'İ' ++ "</body>".toList ++ ['日']

def scriptSrcPath : Str := "/__orbit_hmr_client.js".toList

/-- The successful payload of `inject_hmr_client`, when it neither panics
nor errs. -/
def injOk (html : Str) (t : Nat) : Option Str :=
  (inject_hmr_client html t).bind fun r =>
    match r with
    | .ok o => some o
    | .error _ => none

/-! Helper lemmas. -/

/-- After `record_rebuild`, every tracked module is marked applied, so the
pending list is empty. -/
theorem get_pending_record_rebuild (ctx : HmrCtx) (now : Nat) :
    get_pending_updates (record_rebuild ctx now) = [] := by
  simp [get_pending_updates, record_rebuild, mark_modules_updated,
    List.filter_eq_nil_iff]

/-- `List.getD` yields the default or a member of the list. -/
theorem getD_default_or_mem (l : List Char) (n : Nat) (d : Char) :
    l.getD n d = d ∨ l.getD n d ∈ l := by
  rcases h : l[n]? with _ | a
  · left
    simp [List.getD, h]
  · right
    have he : l.getD n d = a := by simp [List.getD, h]
    rw [he]
    exact List.getElem?_mem h

/-- `asciiLower` keeps ASCII characters ASCII. -/
theorem asciiLower_ascii (c : Char) (h : c.toNat < 128) :
    (asciiLower c).toNat < 128 := by
  unfold asciiLower
  rcases getD_default_or_mem ("abcdefghijklmnopqrstuvwxyz".toList)
      (("ABCDEFGHIJKLMNOPQRSTUVWXYZ".toList).indexOf c) c with h1 | h1
  · rw [h1]; exact h
  · have hall : ∀ x ∈ "abcdefghijklmnopqrstuvwxyz".toList, x.toNat < 128 := by decide
    exact hall _ h1

/-- On ASCII input the Unicode lowercasing is a single-character map. -/
theorem rustToLower_ascii (c : Char) (h : c.toNat < 128) :
    rustToLower c = [asciiLower c] := by
  unfold rustToLower
  rw [if_neg]
  intro he
  rw [he] at h
  exact absurd h (by decide)

/-- On ASCII input `to_lowercase` maps each character to one character. -/
theorem toLowercase_ascii_map (l : Str) (h : ∀ c ∈ l, c.toNat < 128) :
    toLowercase l = l.map asciiLower := by
  induction l with
  | nil => rfl
  | cons c rest ih =>
    have hc : c.toNat < 128 := h c (List.mem_cons_self c rest)
    have hr : ∀ x ∈ rest, x.toNat < 128 := fun x hx => h x (List.mem_cons_of_mem c hx)
    simp only [toLowercase, List.map_cons, List.flatten_cons, rustToLower_ascii c hc]
    simp only [toLowercase] at ih
    rw [ih hr]
    rfl

/-- ASCII characters occupy one byte in UTF-8. -/
theorem utf8Len_eq_one (c : Char) (h : c.toNat < 128) : utf8Len c = 1 := by
  unfold utf8Len
  rw [if_pos h]

/-- On a string of one-byte characters, any byte index `rfind` returns is at
most the length. -/
theorem rfindSub_le_length (p : Str) :
    ∀ (l : Str), (∀ c ∈ l, utf8Len c = 1) →
      ∀ i, rfindSub p l = some i → i ≤ l.length := by
  intro l
  induction l with
  | nil =>
    intro _ i hi
    unfold rfindSub at hi
    by_cases hp : p = []
    · rw [if_pos hp] at hi
      cases hi
      exact Nat.le_refl 0
    · rw [if_neg hp] at hi
      exact absurd hi (by simp)
  | cons c rest ih =>
    intro h1 i hi
    unfold rfindSub at hi
    rcases hr : rfindSub p rest with _ | j
    · rw [hr] at hi
      by_cases hp : p.isPrefixOf (c :: rest) = true
      · rw [if_pos hp] at hi
        cases hi
        exact Nat.zero_le _
      · rw [if_neg hp] at hi
        exact absurd hi (by simp)
    · rw [hr] at hi
      cases hi
      have hj : j ≤ rest.length :=
        ih (fun x hx => h1 x (List.mem_cons_of_mem c hx)) j hr
      have hc : utf8Len c = 1 := h1 c (List.mem_cons_self c rest)
      simp [hc, List.length_cons]
      omega

/-- Splitting a string of one-byte characters succeeds at any byte index up
to its length. -/
theorem splitAtByte_isSome_of_ascii :
    ∀ (l : Str) (n : Nat), (∀ c ∈ l, utf8Len c = 1) → n ≤ l.length →
      (splitAtByte n l).isSome = true := by
  intro l
  induction l with
  | nil =>
    intro n _ hn
    have : n = 0 := Nat.le_zero.mp hn
    subst this
    rfl
  | cons c rest ih =>
    intro n h1 hn
    by_cases h0 : n = 0
    · subst h0
      rfl
    · have hc : utf8Len c = 1 := h1 c (List.mem_cons_self c rest)
      unfold splitAtByte
      rw [if_neg h0]
      show (if utf8Len c ≤ n then
          Option.map (fun pr => (c :: pr.1, pr.2)) (splitAtByte (n - utf8Len c) rest)
        else none).isSome = true
      rw [hc, if_pos (Nat.one_le_iff_ne_zero.mpr h0)]
      rw [Option.isSome_map']
      exact ih (n - 1) (fun x hx => h1 x (List.mem_cons_of_mem c hx))
        (by simp at hn; omega)

/-! Claim theorems. -/

/-- C10: in every `HmrContext` state, `needs_update` is true exactly when
`get_pending_updates` is nonempty, and `get_pending_updates` returns exactly
the module ids of the tracked entries whose `is_updated` flag is false; as
the statement quantifies over every state, every operation preserves the
agreement. -/
theorem pending_agrees_with_needs_update :
    ∀ ctx : HmrCtx,
      ((needs_update ctx = true) ↔ get_pending_updates ctx ≠ []) ∧
      (∀ m, m ∈ get_pending_updates ctx ↔
        ∃ u, u ∈ ctx.modules ∧ u.is_updated = false ∧ u.module = m) := by
  intro ctx
  constructor
  · simp only [needs_update, get_pending_updates, List.any_eq_true, ne_eq,
      List.map_eq_nil_iff, List.filter_eq_nil_iff]
    push_neg
    constructor
    · rintro ⟨u, hu, hn⟩
      exact ⟨u, hu, by simpa using hn⟩
    · rintro ⟨u, hu, hn⟩
      exact ⟨u, hu, by simpa using hn⟩
  · intro m
    simp only [get_pending_updates, List.mem_map, List.mem_filter]
    constructor
    · rintro ⟨u, ⟨hu, hf⟩, hm⟩
      exact ⟨u, hu, by simpa using hf, hm⟩
    · rintro ⟨u, hu, hf, hm⟩
      exact ⟨u, ⟨hu, by simpa using hf⟩, hm⟩

/-- Witness for C10 at a context holding one pending module. -/
theorem pending_agrees_with_needs_update_witness :
    get_pending_updates ctxA ≠ [] ∧ "main".toList ∈ get_pending_updates ctxA := by
  refine ⟨(pending_agrees_with_needs_update ctxA).1.mp (by decide), ?_⟩
  exact ((pending_agrees_with_needs_update ctxA).2 ("main".toList)).mpr
    ⟨⟨"main".toList, 0, false⟩, by decide, rfl, rfl⟩

/-- C7: stale eviction removes exactly the entries whose age exceeds
`max_age`, regardless of their applied flag, leaves every other entry
untouched, and is idempotent; `get_stale_updates` lists exactly the stale
module ids. -/
theorem stale_eviction_exact :
    ∀ (ctx : HmrCtx) (now maxAge : Nat),
      (∀ u, u ∈ (clear_stale_updates ctx now maxAge).modules ↔
        u ∈ ctx.modules ∧ now - u.timestamp ≤ maxAge) ∧
      clear_stale_updates (clear_stale_updates ctx now maxAge) now maxAge =
        clear_stale_updates ctx now maxAge ∧
      (∀ m, m ∈ get_stale_updates ctx now maxAge ↔
        ∃ u, u ∈ ctx.modules ∧ maxAge < now - u.timestamp ∧ u.module = m) := by
  intro ctx now maxAge
  refine ⟨?_, ?_, ?_⟩
  · intro u
    simp [clear_stale_updates, List.mem_filter]
  · simp only [clear_stale_updates]
    rw [List.filter_filter]
    simp
  · intro m
    simp only [get_stale_updates, List.mem_map, List.mem_filter,
      decide_eq_true_eq]
    constructor
    · rintro ⟨u, ⟨hu, hs⟩, hm⟩
      exact ⟨u, hu, hs, hm⟩
    · rintro ⟨u, hu, hs, hm⟩
      exact ⟨u, ⟨hu, hs⟩, hm⟩

/-- Witness for C7: the fresh entry survives eviction, eviction is
idempotent, and the old applied entry is listed stale. -/
theorem stale_eviction_exact_witness :
    uFresh ∈ (clear_stale_updates ctxW 1000 300).modules ∧
    clear_stale_updates (clear_stale_updates ctxW 1000 300) 1000 300 =
      clear_stale_updates ctxW 1000 300 ∧
    "old".toList ∈ get_stale_updates ctxW 1000 300 := by
  refine ⟨((stale_eviction_exact ctxW 1000 300).1 uFresh).mpr ⟨by decide, by decide⟩,
    (stale_eviction_exact ctxW 1000 300).2.1, ?_⟩
  exact ((stale_eviction_exact ctxW 1000 300).2.2 ("old".toList)).mpr
    ⟨⟨"old".toList, 100, true⟩, by decide, by decide, rfl⟩

/-- C6: `should_rebuild` is false whenever `last_rebuild` is set and less
than the debounce has elapsed since it; otherwise it equals `needs_update`. -/
theorem should_rebuild_debounce :
    ∀ (ctx : HmrCtx) (now d : Nat),
      (∀ t, ctx.last_rebuild = some t → now - t < d →
        should_rebuild ctx now d = false) ∧
      ((∀ t, ctx.last_rebuild = some t → d ≤ now - t) →
        should_rebuild ctx now d = needs_update ctx) := by
  intro ctx now d
  constructor
  · intro t ht hlt
    simp [should_rebuild, ht, hlt]
  · intro hge
    rcases hl : ctx.last_rebuild with _ | t
    · simp [should_rebuild, hl]
    · have := hge t hl
      simp [should_rebuild, hl, Nat.not_lt.mpr this]

/-- Witness for C6: the debounce scenario of the spec with
`debounce = 500 ms` — after a rebuild at instant 0 and a change at 200,
checking at 200 yields false and at 600 yields true; with no prior rebuild a
pending module makes it true. -/
theorem should_rebuild_debounce_witness :
    should_rebuild ctxB 200 500 = false ∧ should_rebuild ctxB 600 500 = true ∧
    should_rebuild ctxA 0 500 = true := by
  refine ⟨(should_rebuild_debounce ctxB 200 500).1 0 (by decide) (by decide), ?_, ?_⟩
  · have h := (should_rebuild_debounce ctxB 600 500).2 ?_
    · exact h.trans (by decide)
    · intro t ht
      have h0 : ctxB.last_rebuild = some 0 := by decide
      rw [h0] at ht
      injection ht with h2
      subst h2
      decide
  · have h := (should_rebuild_debounce ctxA 0 500).2 ?_
    · exact h.trans (by decide)
    · intro t ht
      have h0 : ctxA.last_rebuild = none := by decide
      rw [h0] at ht
      exact Option.noConfusion ht

/-- C3 counterexample: on a freshly constructed `DevServer` (sender present,
zero subscribers, as after `broadcast::channel(16)` drops its initial
receiver) publishing the reload message returns an error, not a successful
no-op. -/
theorem broadcast_update_new_errs :
    (broadcast_update DevServerB.new reloadJson).isOk = false := by decide

/-- C3 amended: `broadcast_update` succeeds when the sender has been taken
by `start()` or when at least one subscriber is connected, but returns an
error when the sender is present and zero subscribers are connected. -/
theorem broadcast_update_subscriber_cases :
    ∀ (s : DevServerB) (m : Str),
      ((s.tx = none ∨ ∃ tx, s.tx = some tx ∧ 0 < tx.receivers) →
        broadcast_update s m = .ok ()) ∧
      (∀ tx, s.tx = some tx → tx.receivers = 0 →
        (broadcast_update s m).isOk = false) := by
  intro s m
  constructor
  · rintro (h | ⟨tx, htx, hpos⟩)
    · simp [broadcast_update, h]
    · simp [broadcast_update, htx, tokioBroadcastSend, Nat.pos_iff_ne_zero.mp hpos]
  · intro tx htx h0
    simp [broadcast_update, htx, tokioBroadcastSend, h0, Except.isOk, Except.toBool]

/-- Witness for C3 amended: a taken sender is a silent success, a present
sender with zero subscribers errors. -/
theorem broadcast_update_subscriber_cases_witness :
    broadcast_update ⟨none⟩ reloadJson = .ok () ∧
    (broadcast_update DevServerB.new reloadJson).isOk = false :=
  ⟨(broadcast_update_subscriber_cases ⟨none⟩ reloadJson).1 (Or.inl rfl),
   (broadcast_update_subscriber_cases DevServerB.new reloadJson).2 ⟨0⟩ rfl rfl⟩

/-- C4: requests whose resolved path is missing or not a regular file get a
404 with a plain-text body, but an existing regular file whose open fails
(unreadable, or the injection-read fallback) panics the serving thread
through `expect("Failed to open file")` instead of degrading. -/
theorem asset_server_404_and_open_panic :
    serve fs4 jsStub ("/nope.txt".toList) 0 =
      .ok ⟨404, "File not found".toList, some ("text/plain".toList)⟩ ∧
    serve fs4 jsStub ("/assets".toList) 0 =
      .ok ⟨404, "File not found".toList, some ("text/plain".toList)⟩ ∧
    serve fs4 jsStub ("/locked.bin".toList) 0 =
      .panicked ("Failed to open file".toList) ∧
    serve fs4 jsStub ("/locked.html".toList) 0 =
      .panicked ("Failed to open file".toList) := by
  refine ⟨by decide, by decide, by decide, by decide⟩

/-- C5 counterexample: for the path `<root>/src/src/main.rs` the code
returns module id `main` — `replace` removes every occurrence of `src/` —
while stripping only the leading prefix and the extension would give
`src/main`. -/
theorem module_id_nested_src_mismatch :
    (record_file_change (HmrCtx.init rootP) nestedSrcPath 0).1 ≠
      specModuleId rootP nestedSrcPath ∧
    (record_file_change (HmrCtx.init rootP) nestedSrcPath 0).1 =
      some ("main".toList) ∧
    specModuleId rootP nestedSrcPath = some ("src/main".toList) := by
  refine ⟨by decide, by decide, by decide⟩

/-- C8: the inserted script tag does not contain the marker token the
function checks, so injecting into the output of a previous injection adds a
second script tag with a different cache-busting parameter instead of
returning the text unchanged — the operation is not idempotent. -/
theorem inject_not_idempotent :
    occursB hmrMarker (scriptTag 1) = false ∧
    ((injOk c8html 1).bind fun o => injOk o 2) ≠ injOk c8html 1 ∧
    ((injOk c8html 1).bind fun o => injOk o 2).map (countOcc scriptSrcPath) =
      some 2 ∧
    (injOk c8html 1).map (countOcc scriptSrcPath) = some 1 ∧
    ((injOk c8html 1).bind fun o => injOk o 2).map (countOcc ("js?v=1".toList)) =
      some 1 ∧
    ((injOk c8html 1).bind fun o => injOk o 2).map (countOcc ("js?v=2".toList)) =
      some 1 := by
  refine ⟨by decide, by decide, by decide, by decide, by decide, by decide⟩

/-- C9 counterexample: on input of eight U+0130 characters followed by a
body close tag and a three-byte character, the byte index found in the
lowercased copy (24) falls inside the trailing character of the original, so
`split_at` panics — the function is not total and the index is not a valid
split position. -/
theorem inject_panics_on_nonascii :
    (inject_hmr_client c9bad 0).isSome = false := by decide

/-- C9 amended: the `Err` branch is never produced (every non-panicking run
returns `Ok`), and on all-ASCII input the byte index found in the lowercased
copy is always a valid split position, so the function is total there; the
counterexample shows totality fails once lowercasing changes byte lengths. -/
theorem inject_ok_total_on_ascii :
    ∀ (html : Str) (t : Nat),
      Option.all (fun r => r.isOk) (inject_hmr_client html t) = true ∧
      (html.all (fun c => c.toNat < 128) = true →
        (inject_hmr_client html t).isSome = true) := by
  intro html t
  constructor
  · unfold inject_hmr_client
    split
    · rfl
    · split
      · split
        · rfl
        · rfl
      · rfl
  · intro hascii
    have hall : ∀ c ∈ html, c.toNat < 128 := by
      intro c hc
      have := List.all_eq_true.mp hascii c hc
      exact of_decide_eq_true this
    have hlow : toLowercase html = html.map asciiLower :=
      toLowercase_ascii_map html hall
    have hchars1 : ∀ c ∈ toLowercase html, utf8Len c = 1 := by
      rw [hlow]
      intro c hc
      rcases List.mem_map.mp hc with ⟨d, hd, rfl⟩
      exact utf8Len_eq_one _ (asciiLower_ascii d (hall d hd))
    unfold inject_hmr_client
    rcases hocc : occursB hmrMarker html with _ | _
    · rcases hr : rfindSub bodyClose (toLowercase html) with _ | pos
      · simp [hocc, hr]
      · have hple : pos ≤ (toLowercase html).length :=
          rfindSub_le_length bodyClose (toLowercase html) hchars1 pos hr
        have hlen : (toLowercase html).length = html.length := by
          rw [hlow]; simp
        have hsp : (splitAtByte pos html).isSome = true :=
          splitAtByte_isSome_of_ascii html pos
            (fun c hc => utf8Len_eq_one c (hall c hc)) (by omega)
        rcases Option.isSome_iff_exists.mp hsp with ⟨pr, hpr⟩
        simp [hocc, hr, hpr]
    · simp [hocc]

/-- Witness for C9 amended at a concrete ASCII document. -/
theorem inject_ok_total_on_ascii_witness :
    Option.all (fun r => r.isOk) (inject_hmr_client c8html 5) = true ∧
    (inject_hmr_client c8html 5).isSome = true :=
  ⟨(inject_ok_total_on_ascii c8html 5).1,
   (inject_ok_total_on_ascii c8html 5).2 (by decide)⟩

/-- C1: on a successful rebuild the coordinator computes the pending list
only after `record_rebuild` has already marked every module applied, so the
list is always empty and the hmr message is never broadcast — even when the
set collected just before the reset is nonempty, as at the concrete input. -/
theorem hmr_update_dead_after_successful_rebuild :
    (∀ (pdir : RPath) (s : DevLoopState) (now : Nat) (e : WatchEvent)
        (r : DevLoopState × List Msg),
      processEvent pdir s now e true = some r →
        ∀ mods, Msg.hmr mods ∉ r.2) ∧
    processEvent rootP s0 600 ev1 true = some (s1, msgs1) ∧
    get_pending_updates (recordAll s0.hmr ev1.paths 600) = ["main".toList] := by
  refine ⟨?_, by decide, by decide⟩
  intro pdir s now e r h mods
  simp only [processEvent] at h
  split at h
  · exact absurd h (by simp)
  · rw [get_pending_record_rebuild] at h
    simp only [ne_eq, not_true_eq_false, if_true, if_false, ite_self] at h
    split at h
    · rcases Option.some.inj h with rfl
      simp
    · rcases Option.some.inj h with rfl
      simp

/-- Witness for C1: the general part applied at the concrete successful
rebuild, whose broadcast list indeed carries no hmr message. -/
theorem hmr_update_dead_after_successful_rebuild_witness :
    Msg.hmr (["main".toList]) ∉ (s1, msgs1).2 :=
  hmr_update_dead_after_successful_rebuild.1 rootP s0 600 ev1 (s1, msgs1)
    (by decide) (["main".toList])

/-- C2: every watch notification the coordinator processes (i.e. that is not
dropped by the thread-local debounce `continue`) broadcasts the raw
fileChange message — carrying the event paths relativized to the project
directory and the event kind — first, regardless of whether any path maps to
a module. -/
theorem file_change_always_first_broadcast :
    ∀ (pdir : RPath) (s : DevLoopState) (now : Nat) (e : WatchEvent)
      (b : Bool) (r : DevLoopState × List Msg),
      processEvent pdir s now e b = some r →
        r.2.head? = some (Msg.fileChange (e.paths.map (relPathStr pdir)) e.kind) := by
  intro pdir s now e b r h
  simp only [processEvent] at h
  split at h
  · exact absurd h (by simp)
  · split at h
    · split at h
      · rcases Option.some.inj h with rfl
        simp
      · rcases Option.some.inj h with rfl
        simp
    · rcases Option.some.inj h with rfl
      simp

/-- Witness for C2: an event on `README.md`, which maps to no module, still
gets its fileChange message broadcast first. -/
theorem file_change_always_first_broadcast_witness :
    rReadme.2.head? =
      some (Msg.fileChange (evReadme.paths.map (relPathStr rootP)) evReadme.kind) :=
  file_change_always_first_broadcast rootP s0 600 evReadme true rReadme (by decide)

/-- C5 amended: for every path `root ++ src/ ++ comps ++ name` whose final
component has extension `rs` or `orbit`, `record_file_change` returns `some`
of the relative path with every occurrence of `src/`, then `.rs`, then
`.orbit` removed (Rust `replace` removes all occurrences, not only the
leading prefix and the trailing extension); this coincides with
prefix-and-extension stripping exactly when those substrings occur nowhere
else in the path. -/
theorem record_file_change_replace_all :
    ∀ (root : RPath) (comps : List Comp) (name : Comp) (e : Str) (now : Nat),
      rustExtension name = some e → (e = rsExt ∨ e = orbitExt) →
      (record_file_change (HmrCtx.init root)
          (root ++ "src".toList :: (comps ++ [name])) now).1 =
        some (replList dotOrbit [] (replList dotRs [] (replList srcSlash []
          (normSlashes (compString ("src".toList :: (comps ++ [name]))))))) := by
  intro root comps name e now hext hrec
  have h1 : stripPrefixPath (HmrCtx.init root).project_root
      (root ++ "src".toList :: (comps ++ [name])) =
      some ("src".toList :: (comps ++ [name])) := by
    show stripPrefixPath root (root ++ "src".toList :: (comps ++ [name])) = _
    unfold stripPrefixPath
    rw [if_pos (List.isPrefixOf_iff_prefix.mpr (List.prefix_append _ _))]
    rw [List.drop_left]
  have h2 : pathExtension (root ++ "src".toList :: (comps ++ [name])) = some e := by
    have hcat : root ++ "src".toList :: (comps ++ [name]) =
        (root ++ "src".toList :: comps) ++ [name] := by simp
    rw [pathExtension, hcat, List.getLast?_concat]
    simpa using hext
  have h3 : srcSlash.isPrefixOf
      (normSlashes (compString ("src".toList :: (comps ++ [name])))) = true := by
    rcases hcons : comps ++ [name] with _ | ⟨d, ds⟩
    · exact absurd hcons (by simp)
    · show srcSlash.isPrefixOf (normSlashes (compString ("src".toList :: d :: ds))) = true
      show srcSlash.isPrefixOf (normSlashes ("src".toList ++ '/' :: compString (d :: ds))) = true
      rw [normSlashes, List.map_append]
      show List.isPrefixOf ('s' :: 'r' :: 'c' :: '/' :: []) _ = true
      simp [List.isPrefixOf]
  rcases hrec with rfl | rfl
  · simp only [record_file_change, h1, h2]
    rw [if_pos (Or.inl trivial), if_pos h3]
  · simp only [record_file_change, h1, h2]
    rw [if_pos (Or.inr trivial), if_pos h3]

/-- Witness for C5 amended at the example of the spec:
`map("/project/src/components/counter.orbit", "/project") ==
"components/counter"`. -/
theorem record_file_change_replace_all_witness :
    (record_file_change (HmrCtx.init (["project".toList]))
        (["project".toList] ++ "src".toList :: (["components".toList] ++ ["counter.orbit".toList])) 0).1 =
      some ("components/counter".toList) := by
  have h := record_file_change_replace_all (["project".toList])
    (["components".toList]) ("counter.orbit".toList) orbitExt 0 (by decide)
    (Or.inr rfl)
  exact h.trans (by decide)

end Orbiton
